import Mathlib

/-!
Verification development for the slidecast generation-and-synchronization
pipeline.

The definitions below are a shallow embedding of the Python sources:

* `src/backend/models.py`       — the data model (`Slide`,
  `PresentationMetadata`, `PresentationManifest`).  The optional
  flash-card list (`cards`, unused by every code path treated here) is
  omitted.
* `src/backend/services/sync.py` — keyword extraction, Jaccard
  similarity, and `SyncService.sync_with_audio`.
* `src/backend/services/llm.py`  — the chunk splitter
  (`LLMService._chunk_segments`) and the generation orchestrator
  (`LLMService.generate_slides_async`).  The remote text-generation
  backend is abstracted as an oracle assigning to every attempt number
  the outcome of that attempt (`none` = the call raised, `some r` = the
  parsed response), which is the standard shallow embedding of a
  fallible external call.
* `src/backend/main.py`          — the slide/timestamp part of
  `merge_slidepacks` (file system, audio concatenation and database
  bookkeeping are outside the modelled core).

Python `float` timestamps and similarity scores are modelled as `ℚ`;
Python `set` becomes `Finset`; Python string operations are modelled on
the underlying character lists (ASCII-faithful: `str.lower`,
`str.isalnum` and `str.split()` agree with the Lean models on the ASCII
inputs used by the repository).
-/

namespace Slidecast

/-- One transcription segment, as produced by the (external) Whisper
service and consumed by both `sync` and `generate`:
`{start: float, end: float, text: str}`. -/
structure TranscriptSegment where
  start : ℚ
  «end» : ℚ
  text : String
deriving DecidableEq, Repr

/-- `models.Slide`. -/
structure Slide where
  id : ℕ
  timestamp_start : ℚ
  timestamp_end : ℚ
  title : String
  content : List String
  math_formulas : List String := []
  deep_dive : Option String := none
deriving DecidableEq, Repr

/-- `models.PresentationMetadata`. -/
structure PresentationMetadata where
  title : String
  duration : ℚ
deriving DecidableEq, Repr

/-- `models.PresentationManifest` (the `cards` field, unused by the
generation/sync/merge code paths, is omitted). -/
structure PresentationManifest where
  metadata : PresentationMetadata
  slides : List Slide
deriving DecidableEq, Repr

/-- Placeholder segment used to totalise list indexing; every access in
the algorithms below is within bounds, so the placeholder is never the
value actually read. -/
def default_segment : TranscriptSegment := { start := 0, «end» := 0, text := "" }

/-! ## Keyword extraction and similarity (`sync.py`, lines 26-67) -/

/-- The stop-word set of `SyncService._extract_keywords` (the Python
`set` literal collapses its duplicated entries; the list below keeps
them, and only membership is ever used). -/
def stop_words : List String :=
  ["il", "lo", "la", "i", "gli", "le", "un", "uno", "una",
   "di", "a", "da", "in", "con", "su", "per", "tra", "fra",
   "che", "e", "è", "sono", "come", "questo", "questa", "questi",
   "quello", "quella", "quelli", "quelle", "del", "della", "dei",
   "delle", "al", "alla", "ai", "alle", "dal", "dalla", "nel",
   "nella", "sul", "sulla", "si", "ci", "ne", "lo", "la", "li",
   "the", "a", "an", "is", "are", "was", "were", "be", "been",
   "being", "have", "has", "had", "do", "does", "did", "will",
   "would", "could", "should", "may", "might", "must", "shall"]

/-- Helper for `py_split`: accumulates the current word (reversed) while
scanning the character list. -/
def split_words_aux : List Char → List Char → List String
  | [], acc => if acc = [] then [] else [String.mk acc.reverse]
  | c :: cs, acc =>
    if c.isWhitespace then
      if acc = [] then split_words_aux cs []
      else String.mk acc.reverse :: split_words_aux cs []
    else split_words_aux cs (c :: acc)

/-- Python `str.split()` (no separator): split on runs of whitespace,
dropping empty words. -/
def py_split (s : String) : List String := split_words_aux s.data []

/-- Python `str.lower()` (ASCII). -/
def py_lower (s : String) : String := String.mk (s.data.map Char.toLower)

/-- `SyncService._extract_keywords`: lowercase, split on whitespace,
strip non-alphanumeric characters per word, keep words of length > 2
that are not stop words, return them as a set. -/
def extract_keywords (text : String) : Finset String :=
  let words := py_split (py_lower text)
  let clean_words := words.filterMap (fun word =>
    let clean_word := String.mk (word.data.filter Char.isAlphanum)
    if clean_word ≠ "" ∧ clean_word.length > 2 ∧ clean_word ∉ stop_words
    then some clean_word else none)
  clean_words.toFinset

/-- The Jaccard-index core of `SyncService._calculate_similarity`
(`sync.py` lines 60-67): `0.0` if either keyword set is empty, otherwise
`|a ∩ b| / |a ∪ b|` (with the source's redundant guard on `union > 0`). -/
def jaccard_similarity (a b : Finset String) : ℚ :=
  if a = ∅ ∨ b = ∅ then 0
  else
    let intersection := (a ∩ b).card
    let union := (a ∪ b).card
    if union > 0 then (intersection : ℚ) / union else 0

/-- `SyncService._calculate_similarity`: keyword sets of the slide's
title + content (+ optional deep dive) versus the transcript segment
text, compared by Jaccard index. -/
def calculate_similarity (slide : Slide) (transcript_segment : String) : ℚ :=
  let slide_text := slide.title ++ " " ++ String.intercalate " " slide.content
  let slide_text :=
    match slide.deep_dive with
    | some d => slide_text ++ " " ++ d
    | none => slide_text
  jaccard_similarity (extract_keywords slide_text) (extract_keywords transcript_segment)

/-- `SyncService.similarity_threshold` (`0.3`). -/
def similarity_threshold : ℚ := 3 / 10

/-! ## The synchronizer (`sync.py`, lines 69-170) -/

/-- The inner candidate search of `sync_with_audio` (lines 101-116): scan
segment indices from `search_start` to the end of the list, skip indices
already consumed, and keep the first candidate whose similarity strictly
exceeds the best seen so far, starting from `(None, 0.0)`. -/
def find_best_match (slide : Slide) (segment_texts : List TranscriptSegment)
    (used_segment_indices : List ℕ) (search_start : ℕ) : Option ℕ × ℚ :=
  (List.range' search_start (segment_texts.length - search_start)).foldl
    (fun best seg_idx =>
      if seg_idx ∈ used_segment_indices then best
      else
        let similarity := calculate_similarity slide
          ((segment_texts.getD seg_idx default_segment).text)
        if best.2 < similarity then (some seg_idx, similarity) else best)
    (none, 0)

/-- The per-slide loop of `sync_with_audio` (lines 100-143): process the
slides in their original order, threading the set of consumed segment
indices; `slide_idx - 2` is `max(0, slide_idx - 2)` by truncated `ℕ`
subtraction. An accepted match (best index found and similarity at least
the threshold) re-anchors the slide at the segment's start, preserving
the slide's original duration; otherwise the original timestamps are
kept. All text fields and the id are copied verbatim either way. -/
def sync_loop (segment_texts : List TranscriptSegment) :
    ℕ → List ℕ → List Slide → List Slide
  | _, _, [] => []
  | slide_idx, used_segment_indices, slide :: rest =>
    let best := find_best_match slide segment_texts used_segment_indices (slide_idx - 2)
    match best.1 with
    | some best_match_idx =>
      if similarity_threshold ≤ best.2 then
        let new_start := (segment_texts.getD best_match_idx default_segment).start
        let duration := slide.timestamp_end - slide.timestamp_start
        { slide with timestamp_start := new_start, timestamp_end := new_start + duration } ::
          sync_loop segment_texts (slide_idx + 1) (best_match_idx :: used_segment_indices) rest
      else
        slide :: sync_loop segment_texts (slide_idx + 1) used_segment_indices rest
    | none => slide :: sync_loop segment_texts (slide_idx + 1) used_segment_indices rest

/-- The overlap-resolution pass of `sync_with_audio` (lines 146-156): a
single forward sweep; whenever slide `i`'s end exceeds slide `i+1`'s
start, slide `i`'s end is lowered to that start (starts are never
touched, so the in-place Python loop is equivalent to this sweep). -/
def adjust_end_times : List Slide → List Slide
  | [] => []
  | [s] => [s]
  | s :: t :: rest =>
    (if t.timestamp_start < s.timestamp_end
     then { s with timestamp_end := t.timestamp_start } else s) :: adjust_end_times (t :: rest)

/-- `SyncService.sync_with_audio`: empty-segment input returns the
presentation unchanged; otherwise the slides are re-timed by
`sync_loop`, end-times are adjusted, and the total duration becomes the
last segment's end. -/
def sync_with_audio (presentation : PresentationManifest)
    (transcription_segments : List TranscriptSegment) : PresentationManifest :=
  if transcription_segments = [] then presentation
  else
    let synced_slides := adjust_end_times
      (sync_loop transcription_segments 0 [] presentation.slides)
    let total_duration :=
      if synced_slides ≠ [] ∧ transcription_segments ≠ [] then
        (transcription_segments.getLastD default_segment).«end»
      else presentation.metadata.duration
    { metadata := { title := presentation.metadata.title, duration := total_duration },
      slides := synced_slides }

/-! ## The chunk splitter (`llm.py`, lines 22-42) -/

/-- The loop of `LLMService._chunk_segments`: state is the list of
closed chunks, the currently accumulating chunk, and the start time that
seeded the current chunk; the trailing non-empty chunk is flushed at the
end. -/
def chunk_loop (chunk_duration : ℚ) :
    List TranscriptSegment → List (List TranscriptSegment) →
    List TranscriptSegment → ℚ → List (List TranscriptSegment)
  | [], chunks, current_chunk, _ =>
    if current_chunk = [] then chunks else chunks ++ [current_chunk]
  | segment :: rest, chunks, current_chunk, chunk_start =>
    if chunk_duration ≤ segment.start - chunk_start ∧ current_chunk ≠ [] then
      chunk_loop chunk_duration rest (chunks ++ [current_chunk]) [segment] segment.start
    else
      chunk_loop chunk_duration rest chunks (current_chunk ++ [segment]) chunk_start

/-- `LLMService._chunk_segments`: empty input yields no chunks,
otherwise the fold above seeded at the first segment's start. -/
def chunk_segments (segments : List TranscriptSegment) (chunk_duration : ℚ) :
    List (List TranscriptSegment) :=
  match segments with
  | [] => []
  | s0 :: _ => chunk_loop chunk_duration segments [] [] s0.start

/-! ## The generation orchestrator (`llm.py`, lines 120-238) -/

/-- Modelled from the spec: the retry executor is the external
`tenacity` library (not part of this repository's sources), configured
in `llm.py` lines 120-124 with `stop_after_attempt(5)` and
`retry_if_exception_type(Exception)`. Given the oracle of per-attempt
outcomes, the retried call returns the first successful attempt among
the first `max_attempts` attempts, and fails only when all of them
fail. -/
def retryCall {α : Type} (max_attempts : ℕ) (attempts : ℕ → Option α) : Option α :=
  (List.range max_attempts).findSome? attempts

/-- Modelled from the spec: `tenacity.wait_exponential(multiplier, min,
max)` — the wait before retrying after failed attempt number `n`
(1-based) is `multiplier * 2^n` clamped into `[min, max]`. `llm.py`
configures `multiplier=1, min=2, max=60`. -/
def wait_exponential (multiplier mn mx : ℚ) (attempt_number : ℕ) : ℚ :=
  max mn (min (multiplier * 2 ^ attempt_number) mx)

/-- `LLMService._process_chunk_async`: one chunk task = the backend call
for that chunk under the 5-attempt retry policy. The oracle
`attempts` abstracts the remote call (prompt contents included). -/
def process_chunk (attempts : ℕ → Option (List Slide)) : Option (List Slide) :=
  retryCall 5 attempts

/-- Outcome of one of the concurrently gathered tasks
(`asyncio.gather(..., return_exceptions=True)` keeps the launch order and
turns a task's exception into an in-place failure value). -/
inductive TaskResult where
  | slides (result : Option (List Slide))
  | meta (result : Option String)
deriving DecidableEq, Repr

/-- The settled results of the chunk tasks, in launch order: chunk `i` is
processed by `process_chunk` applied to chunk `i`'s own attempt
oracle. -/
def chunk_task_results (chunk_attempts : ℕ → ℕ → Option (List Slide))
    (segment_chunks : List (List TranscriptSegment)) : List (Option (List Slide)) :=
  (List.range segment_chunks.length).map (fun idx => process_chunk (chunk_attempts idx))

/-- The settled results of all launched tasks, in launch order: one task
per chunk plus the final title/metadata task
(`LLMService._generate_title_async`, `llm.py` lines 156-179, which has
no retry decorator — its single attempt is attempt `0`). -/
def gather_tasks (chunk_attempts : ℕ → ℕ → Option (List Slide))
    (title_attempts : ℕ → Option String)
    (segment_chunks : List (List TranscriptSegment)) : List TaskResult :=
  (chunk_task_results chunk_attempts segment_chunks).map TaskResult.slides
    ++ [TaskResult.meta (title_attempts 0)]

/-- The sequential renumbering passes of `generate_slides_async` (lines
222 and 230-231): assign ids `1, 2, ...` in list order. -/
def renumber (slides : List Slide) : List Slide :=
  slides.enum.map (fun p => { p.2 with id := p.1 + 1 })

/-- `all_slides.sort(key=lambda s: s.get('timestamp_start', 0))` —
Python's `list.sort` is stable, hence extensionally the stable insertion
sort by `timestamp_start` (every generated slide carries the key, so the
`.get` default is never used). -/
def sort_slides (slides : List Slide) : List Slide :=
  slides.insertionSort (fun a b => a.timestamp_start ≤ b.timestamp_start)

/-- Lines 213-231 of `generate_slides_async`: drop failed chunk results,
concatenate the surviving slide lists in launch order, number them,
stable-sort by `timestamp_start`, then renumber densely from 1. -/
def assemble (chunk_results : List (Option (List Slide))) : List Slide :=
  renumber (sort_slides (renumber ((chunk_results.filterMap (fun r => r)).flatten)))

/-- `LLMService.generate_slides_async`, with the backend abstracted by
the two attempt oracles. No chunks (empty transcription) short-circuits
to the sentinel empty presentation; otherwise every task's settled
result is gathered, the title/metadata task's failure is replaced by the
sentinel title, failed chunk tasks are dropped, and the surviving slides
are assembled. -/
def generate_slides_async (chunk_attempts : ℕ → ℕ → Option (List Slide))
    (title_attempts : ℕ → Option String)
    (transcription_segments : List TranscriptSegment) : PresentationManifest :=
  let segment_chunks := chunk_segments transcription_segments 120
  if segment_chunks = [] then
    { metadata := { title := "Presentazione Vuota", duration := 0 }, slides := [] }
  else
    let total_duration :=
      match transcription_segments.getLast? with
      | some s => s.«end»
      | none => 0
    let results := gather_tasks chunk_attempts title_attempts segment_chunks
    let metadata : PresentationMetadata :=
      match results.getLast? with
      | some (TaskResult.meta (some title)) => { title := title, duration := total_duration }
      | _ => { title := "Presentazione", duration := total_duration }
    let chunk_results := results.dropLast.map (fun r =>
      match r with
      | TaskResult.slides result => result
      | TaskResult.meta _ => none)
    { metadata := metadata, slides := assemble chunk_results }

/-! ## The merger (`main.py`, `merge_slidepacks`) -/

/-- One completed deck as consumed by the merge endpoint: its
`slides.json` manifest and the duration (in seconds) of its audio
file. -/
structure PackInput where
  data : PresentationManifest
  audio_duration : ℚ
deriving DecidableEq, Repr

/-- Timestamp shift applied to each slide of a merged deck
(`slide['timestamp_start'] += current_time_offset`, same for the
end). -/
def shift_slide (offset : ℚ) (slide : Slide) : Slide :=
  { slide with timestamp_start := slide.timestamp_start + offset,
               timestamp_end := slide.timestamp_end + offset }

/-- The slide/metadata core of `merge_slidepacks` (`main.py`): fewer
than two packs is a 400 error; otherwise each pack's slides are shifted
by the accumulated offset of the preceding packs' audio durations and
appended, and the final offset becomes the merged metadata duration. -/
def merge_slidepacks (title : String) (packs : List PackInput) :
    Except String PresentationManifest :=
  if packs.length < 2 then Except.error "Need at least 2 packs to merge"
  else
    let result := packs.foldl
      (fun (acc : List Slide × ℚ) (p : PackInput) =>
        (acc.1 ++ p.data.slides.map (shift_slide acc.2), acc.2 + p.audio_duration))
      ([], 0)
    Except.ok { metadata := { title := title, duration := result.2 }, slides := result.1 }

/-- Specification-side description of merging: each deck's slides are
shifted by the cumulative audio duration of the preceding decks and
appended in deck order. -/
def merged_slides_spec (offset : ℚ) : List PackInput → List Slide
  | [] => []
  | p :: rest =>
    p.data.slides.map (shift_slide offset) ++ merged_slides_spec (offset + p.audio_duration) rest

/-- Concrete two-deck input for exercising the merger (audio durations
10 and 15, matching the duration example in the specification). -/
def example_packs : List PackInput :=
  [{ data := { metadata := { title := "d1", duration := 10 },
               slides := [{ id := 7, timestamp_start := 1, timestamp_end := 2,
                            title := "a", content := ["x"] }] },
     audio_duration := 10 },
   { data := { metadata := { title := "d2", duration := 15 },
               slides := [{ id := 9, timestamp_start := 3, timestamp_end := 4,
                            title := "b", content := ["y"] }] },
     audio_duration := 15 }]

end Slidecast

namespace Slidecast

/-! ## Statement-support definitions -/

/-- Non-decreasing `timestamp_start` between two slides (the §3 ordering
invariant, checked on adjacent pairs). -/
def ts_le (a b : Slide) : Prop := a.timestamp_start ≤ b.timestamp_start

/-- No overlap between two adjacent slides: the first ends no later than
the second starts. -/
def no_overlap (a b : Slide) : Prop := a.timestamp_end ≤ b.timestamp_start

/-- The duration gap between two consecutive chunks, measured from the
first chunk's first segment's start to the start of the segment that
triggered the next chunk (which is exactly the next chunk's first
segment). -/
def chunk_gap (chunk_duration : ℚ) (c c' : List TranscriptSegment) : Prop :=
  ∀ h ∈ c.head?, ∀ h' ∈ c'.head?, chunk_duration ≤ h'.start - h.start

/-- A slide without its `id`: the fields that synchronization and
re-numbering must carry through unchanged. -/
def slide_payload (s : Slide) : ℚ × ℚ × String × List String × List String × Option String :=
  (s.timestamp_start, s.timestamp_end, s.title, s.content, s.math_formulas, s.deep_dive)

/-- The candidate segment indices examined for the slide at position
`slide_idx`: all indices from `max(0, slide_idx - 2)` (truncated `ℕ`
subtraction) to the end of the segment list that no earlier slide has
consumed. -/
def candidate_indices (segs : List TranscriptSegment) (slide_idx : ℕ)
    (used : List ℕ) : List ℕ :=
  (List.range' (slide_idx - 2) (segs.length - (slide_idx - 2))).filter (fun j => j ∉ used)

/-- Similarity of a slide against the text of the segment at index `j`. -/
def segment_similarity (slide : Slide) (segs : List TranscriptSegment) (j : ℕ) : ℚ :=
  calculate_similarity slide ((segs.getD j default_segment).text)

/-- The strict-improvement step of the best-match fold, abstracted over
the similarity function. -/
def best_step (f : ℕ → ℚ) (acc : Option ℕ × ℚ) (j : ℕ) : Option ℕ × ℚ :=
  if acc.2 < f j then (some j, f j) else acc

/-- The running maximum of `f` over a candidate list. -/
def best_max (f : ℕ → ℚ) (cs : List ℕ) (b : ℚ) : ℚ :=
  cs.foldl (fun b j => max b (f j)) b

instance : IsTotal Slide (fun a b => a.timestamp_start ≤ b.timestamp_start) :=
  ⟨fun _ _ => le_total _ _⟩

instance : IsTrans Slide (fun a b => a.timestamp_start ≤ b.timestamp_start) :=
  ⟨fun _ _ _ => le_trans⟩

/-- A presentation whose first slide matches a late segment while its
second slide (whose title produces no keywords) keeps its early original
timestamps: drives the synchronizer counterexamples. -/
def example_presentation_a : PresentationManifest :=
  { metadata := { title := "t", duration := 20 },
    slides := [{ id := 1, timestamp_start := 0, timestamp_end := 10,
                 title := "cat", content := [] },
               { id := 2, timestamp_start := 0, timestamp_end := 10,
                 title := "zz", content := [] }] }

/-- A single late segment whose text matches `example_presentation_a`'s
first slide exactly. -/
def example_segments_a : List TranscriptSegment :=
  [{ start := 50, «end» := 60, text := "cat" }]

/-- Same shape as `example_presentation_a` with different values, for
the end-before-start observation. -/
def example_presentation_b : PresentationManifest :=
  { metadata := { title := "u", duration := 30 },
    slides := [{ id := 1, timestamp_start := 2, timestamp_end := 12,
                 title := "dog", content := [] },
               { id := 2, timestamp_start := 3, timestamp_end := 13,
                 title := "qm", content := [] }] }

/-- A single late segment whose text matches `example_presentation_b`'s
first slide exactly. -/
def example_segments_b : List TranscriptSegment :=
  [{ start := 100, «end» := 110, text := "dog" }]

/-! ## C9 — algebra of the Jaccard similarity -/

/-- **C9.** The similarity function (Jaccard index over keyword sets)
returns `0` whenever either set is empty, returns `1` on any non-empty
set compared with itself, is symmetric, and always lies in `[0, 1]`. -/
theorem C9_jaccard_similarity_algebra :
    (∀ b : Finset String, jaccard_similarity ∅ b = 0 ∧ jaccard_similarity b ∅ = 0) ∧
    (∀ a : Finset String, a ≠ ∅ → jaccard_similarity a a = 1) ∧
    (∀ a b : Finset String, jaccard_similarity a b = jaccard_similarity b a) ∧
    (∀ a b : Finset String, 0 ≤ jaccard_similarity a b ∧ jaccard_similarity a b ≤ 1) := by
  refine ⟨?_, ?_, ?_, ?_⟩
  · intro b
    constructor <;> simp [jaccard_similarity]
  · intro a ha
    have hcard : 0 < a.card := Finset.card_pos.mpr (Finset.nonempty_iff_ne_empty.mpr ha)
    simp only [jaccard_similarity, Finset.inter_self, Finset.union_self, or_self,
      if_neg ha, if_pos hcard]
    exact div_self (by exact_mod_cast hcard.ne')
  · intro a b
    unfold jaccard_similarity
    by_cases h : a = ∅ ∨ b = ∅
    · rw [if_pos h, if_pos h.symm]
    · rw [if_neg h, if_neg (fun hc : b = ∅ ∨ a = ∅ => h hc.symm)]
      simp only [Finset.inter_comm a b, Finset.union_comm a b]
  · intro a b
    by_cases h : a = ∅ ∨ b = ∅
    · simp [jaccard_similarity, if_pos h]
    · have hsub : a ∩ b ⊆ a ∪ b :=
        le_trans Finset.inter_subset_left Finset.subset_union_left
      by_cases hu : 0 < (a ∪ b).card
      · have hle : (a ∩ b).card ≤ (a ∪ b).card := Finset.card_le_card hsub
        constructor
        · rw [jaccard_similarity, if_neg h]
          simp only [hu, if_pos]
          positivity
        · rw [jaccard_similarity, if_neg h]
          simp only [hu, if_pos]
          rw [div_le_one (by exact_mod_cast hu)]
          exact_mod_cast hle
      · simp [jaccard_similarity, if_neg h, hu]

/-- Witness for C9 at a concrete non-empty keyword set. -/
theorem C9_witness : jaccard_similarity {"dog"} {"dog"} = 1 :=
  C9_jaccard_similarity_algebra.2.1 {"dog"} (by decide)

end Slidecast

namespace Slidecast

/-! ## C5 — the chunk splitter -/

/-- The chunk loop only ever appends: flattening its result recovers the
already-closed chunks, the accumulating chunk, and the unprocessed
segments, in order. -/
lemma chunk_loop_flatten (d : ℚ) :
    ∀ (rest : List TranscriptSegment) chunks current start,
      (chunk_loop d rest chunks current start).flatten
        = chunks.flatten ++ current ++ rest := by
  intro rest
  induction rest with
  | nil =>
    intro chunks current start
    by_cases h : current = [] <;> simp [chunk_loop, h]
  | cons seg rest ih =>
    intro chunks current start
    rw [chunk_loop]
    split
    · rw [ih]; simp
    · rw [ih]; simp

/-- Invariant proof for the chunk loop: all produced chunks are
non-empty, and consecutive chunks are separated by at least the chunk
duration (measured between their first segments' starts). -/
lemma chunk_loop_chain (d : ℚ) :
    ∀ (rest : List TranscriptSegment) chunks current start,
      (∀ c ∈ chunks, c ≠ []) →
      List.Chain' (chunk_gap d) (chunks ++ if current = [] then [] else [current]) →
      (current = [] → chunks = [] ∧ ∀ h ∈ rest.head?, h.start = start) →
      (∀ h ∈ current.head?, h.start = start) →
      (∀ c ∈ chunk_loop d rest chunks current start, c ≠ []) ∧
        List.Chain' (chunk_gap d) (chunk_loop d rest chunks current start) := by
  intro rest
  induction rest with
  | nil =>
    intro chunks current start h1 h2 _h3 _h4
    rw [chunk_loop]
    by_cases hc : current = []
    · rw [if_pos hc]
      rw [if_pos hc, List.append_nil] at h2
      exact ⟨h1, h2⟩
    · rw [if_neg hc]
      rw [if_neg hc] at h2
      refine ⟨?_, h2⟩
      intro c hcmem
      rcases List.mem_append.mp hcmem with h | h
      · exact h1 c h
      · rw [List.mem_singleton.mp h]; exact hc
  | cons seg rest ih =>
    intro chunks current start h1 h2 h3 h4
    rw [chunk_loop]
    split
    case isTrue hsplit =>
      rw [if_neg hsplit.2] at h2
      refine ih (chunks ++ [current]) [seg] seg.start ?_ ?_ ?_ ?_
      · intro c hcmem
        rcases List.mem_append.mp hcmem with h | h
        · exact h1 c h
        · rw [List.mem_singleton.mp h]; exact hsplit.2
      · rw [if_neg (by simp : ¬ ([seg] : List TranscriptSegment) = [])]
        rw [List.chain'_append]
        refine ⟨h2, List.chain'_singleton _, ?_⟩
        intro x hx y hy
        rw [List.getLast?_concat] at hx
        simp only [List.head?_cons, Option.mem_def, Option.some.injEq] at hx hy
        subst hx; subst hy
        intro h hh h' hh'
        simp only [List.head?_cons, Option.mem_def, Option.some.injEq] at hh'
        subst hh'
        have := h4 h hh
        rw [this]
        exact hsplit.1
      · intro habs; simp at habs
      · intro h hh
        simp only [List.head?_cons, Option.mem_def, Option.some.injEq] at hh
        subst hh; rfl
    case isFalse hsplit =>
      by_cases hc : current = []
      · obtain ⟨hchunks, hstart⟩ := h3 hc
        have hs : seg.start = start := hstart seg (by simp)
        subst hchunks; subst hc
        refine ih [] ([] ++ [seg]) start (by simp) (by simp) (by simp) ?_
        intro h hh
        simp only [List.nil_append, List.head?_cons, Option.mem_def, Option.some.injEq] at hh
        subst hh; exact hs
      · rw [if_neg hc] at h2
        have hne : current ++ [seg] ≠ [] := by simp
        have hhead : (current ++ [seg]).head? = current.head? := by
          cases current with
          | nil => exact absurd rfl hc
          | cons a t => rfl
        refine ih chunks (current ++ [seg]) start h1 ?_ (fun habs => absurd habs hne) ?_
        · rw [if_neg hne]
          rw [List.chain'_append] at h2 ⊢
          refine ⟨h2.1, List.chain'_singleton _, ?_⟩
          intro x hx y hy
          simp only [List.head?_cons, Option.mem_def, Option.some.injEq] at hy
          subst hy
          intro h hh h' hh'
          rw [hhead] at hh'
          exact h2.2.2 x hx current (by simp) h hh h' hh'
        · intro h hh
          rw [hhead] at hh
          exact h4 h hh

/-- **C5.** The chunk splitter partitions: flattening the chunks yields
the input segments in order (nothing lost or duplicated), every chunk is
non-empty, consecutive chunks' first segments are at least
`chunk_duration` apart (each chunk except possibly the last spans at
least the chunk duration, measured from its first segment's start to
the start of the segment that triggered the next chunk — which is that
next chunk's first segment), and empty input yields the empty chunk
list without error. -/
theorem C5_chunk_splitter :
    ∀ (segments : List TranscriptSegment) (chunk_duration : ℚ),
      (chunk_segments segments chunk_duration).flatten = segments ∧
      (∀ c ∈ chunk_segments segments chunk_duration, c ≠ []) ∧
      List.Chain' (chunk_gap chunk_duration) (chunk_segments segments chunk_duration) ∧
      chunk_segments [] chunk_duration = [] := by
  intro segments d
  refine ⟨?_, ?_⟩
  · cases segments with
    | nil => rfl
    | cons s0 rest =>
      rw [chunk_segments, chunk_loop_flatten]
      simp
  · cases segments with
    | nil => exact ⟨by simp [chunk_segments], by simp [chunk_segments], rfl⟩
    | cons s0 rest =>
      rw [chunk_segments]
      have := chunk_loop_chain d (s0 :: rest) [] [] s0.start
        (by simp) (by simp) ?_ (by simp)
      · exact ⟨this.1, this.2, rfl⟩
      · intro _
        refine ⟨rfl, ?_⟩
        intro h hh
        simp only [List.head?_cons, Option.mem_def, Option.some.injEq] at hh
        subst hh; rfl

/-- Witness for C5 at the spec's §8 example: three segments with
`chunkDuration = 60` (the third segment, starting at 65 ≥ 60, triggers
the second chunk). -/
theorem C5_witness :
    (chunk_segments [⟨0, 5, "intro"⟩, ⟨5, 65, "topic A details"⟩, ⟨65, 70, "topic A more"⟩]
        60).flatten
      = [⟨0, 5, "intro"⟩, ⟨5, 65, "topic A details"⟩, ⟨65, 70, "topic A more"⟩] ∧
    (∀ c ∈ chunk_segments [⟨0, 5, "intro"⟩, ⟨5, 65, "topic A details"⟩,
        ⟨65, 70, "topic A more"⟩] 60, c ≠ []) ∧
    List.Chain' (chunk_gap 60) (chunk_segments [⟨0, 5, "intro"⟩, ⟨5, 65, "topic A details"⟩,
        ⟨65, 70, "topic A more"⟩] 60) ∧
    chunk_segments [] 60 = [] :=
  C5_chunk_splitter [⟨0, 5, "intro"⟩, ⟨5, 65, "topic A details"⟩, ⟨65, 70, "topic A more"⟩] 60

end Slidecast

namespace Slidecast

/-! ## C8 — the merger -/

/-- The merge fold computes exactly the shifted concatenation and the
total duration. -/
lemma merge_foldl_eq :
    ∀ (packs : List PackInput) (acc : List Slide) (off : ℚ),
      packs.foldl
        (fun (acc : List Slide × ℚ) (p : PackInput) =>
          (acc.1 ++ p.data.slides.map (shift_slide acc.2), acc.2 + p.audio_duration))
        (acc, off)
      = (acc ++ merged_slides_spec off packs,
         off + (packs.map PackInput.audio_duration).sum) := by
  intro packs
  induction packs with
  | nil => intro acc off; simp [merged_slides_spec]
  | cons p rest ih =>
    intro acc off
    simp only [List.foldl_cons, ih, merged_slides_spec, List.map_cons, List.sum_cons]
    rw [List.append_assoc, add_assoc]

/-- Shifting preserves slide ids, so the merged deck's id sequence is
the concatenation of the input decks' id sequences. -/
lemma merged_slides_spec_ids :
    ∀ (packs : List PackInput) (offset : ℚ),
      (merged_slides_spec offset packs).map Slide.id
        = (packs.map (fun p => p.data.slides.map Slide.id)).flatten := by
  intro packs
  induction packs with
  | nil => intro offset; rfl
  | cons p rest ih =>
    intro offset
    simp only [merged_slides_spec, List.map_append, List.map_map, List.map_cons,
      List.flatten_cons, ih]
    congr 1

/-- **C8.** `merge` requires at least 2 decks (fewer is an error) and
otherwise returns the decks' slides in input order, each deck shifted by
the cumulative audio duration of the preceding decks; the output
duration is the total audio duration and slide ids are left as-is. -/
theorem C8_merge_slidepacks :
    ∀ (title : String) (packs : List PackInput),
      (packs.length < 2 →
        merge_slidepacks title packs = Except.error "Need at least 2 packs to merge") ∧
      (2 ≤ packs.length →
        ∃ m, merge_slidepacks title packs = Except.ok m ∧
          m.metadata.title = title ∧
          m.metadata.duration = (packs.map PackInput.audio_duration).sum ∧
          m.slides = merged_slides_spec 0 packs ∧
          m.slides.map Slide.id
            = (packs.map (fun p => p.data.slides.map Slide.id)).flatten) := by
  intro title packs
  constructor
  · intro hlt
    rw [merge_slidepacks, if_pos hlt]
  · intro hge
    rw [merge_slidepacks, if_neg (by omega)]
    refine ⟨_, rfl, rfl, ?_, ?_, ?_⟩
    · rw [merge_foldl_eq]; simp
    · rw [merge_foldl_eq]; simp
    · rw [merge_foldl_eq]
      simp only [List.nil_append]
      exact merged_slides_spec_ids packs 0

/-- Witness for C8 at the spec's example: two decks with audio durations
10 and 15. -/
theorem C8_witness :
    ∃ m, merge_slidepacks "merged" example_packs = Except.ok m ∧
      m.metadata.title = "merged" ∧
      m.metadata.duration = (example_packs.map PackInput.audio_duration).sum ∧
      m.slides = merged_slides_spec 0 example_packs ∧
      m.slides.map Slide.id
        = (example_packs.map (fun p => p.data.slides.map Slide.id)).flatten :=
  (C8_merge_slidepacks "merged" example_packs).2 (by decide)

end Slidecast

namespace Slidecast

/-! ## Generic transport lemmas for renumbering, sorting, and the
synchronizer's passes -/

/-- Mapping any id-insensitive projection through the enumeration-based
renumbering leaves the projected list unchanged. -/
lemma enumFrom_map_payload {β : Type} (g : Slide → β)
    (hg : ∀ s n, g { s with id := n } = g s) :
    ∀ (l : List Slide) (n : ℕ),
      (l.enumFrom n).map (fun p => g { p.2 with id := p.1 + 1 }) = l.map g := by
  intro l
  induction l with
  | nil => intro n; rfl
  | cons a l ih =>
    intro n
    rw [List.enumFrom_cons, List.map_cons, ih (n + 1), hg]
    rfl

/-- `renumber` only touches ids. -/
lemma renumber_map {β : Type} (g : Slide → β)
    (hg : ∀ s n, g { s with id := n } = g s) (l : List Slide) :
    (renumber l).map g = l.map g := by
  rw [renumber, List.map_map]
  exact enumFrom_map_payload g hg l 0

/-- `renumber` assigns the dense id sequence `1, …, length`. -/
lemma renumber_map_id (l : List Slide) :
    (renumber l).map Slide.id = List.range' 1 l.length := by
  rw [renumber, List.map_map]
  have key : ∀ (l : List Slide) (n : ℕ),
      (l.enumFrom n).map (Slide.id ∘ fun p => { p.2 with id := p.1 + 1 })
        = List.range' (n + 1) l.length := by
    intro l
    induction l with
    | nil => intro n; rfl
    | cons a l ih =>
      intro n
      rw [List.enumFrom_cons, List.map_cons]
      show (n + 1) :: (l.enumFrom (n + 1)).map (Slide.id ∘ fun p => { p.2 with id := p.1 + 1 })
          = (n + 1) :: List.range' (n + 1 + 1) l.length
      rw [ih (n + 1)]
  exact key l 0

lemma renumber_length (l : List Slide) : (renumber l).length = l.length := by
  simp [renumber]

/-- The insertion sort used to model Python's stable sort is sorted by
`timestamp_start`. -/
lemma sort_slides_sorted (l : List Slide) :
    List.Sorted (fun a b : Slide => a.timestamp_start ≤ b.timestamp_start) (sort_slides l) :=
  List.sorted_insertionSort _ l

/-- The assembled slide list is in non-decreasing `timestamp_start`
order. -/
lemma assemble_sorted (rs : List (Option (List Slide))) :
    List.Chain' ts_le (assemble rs) := by
  rw [assemble]
  have h2 : List.Chain' (fun a b : Slide => a.timestamp_start ≤ b.timestamp_start)
      (sort_slides (renumber ((rs.filterMap (fun r => r)).flatten))) :=
    List.Pairwise.chain' (sort_slides_sorted _)
  have hmap : (renumber (sort_slides (renumber ((rs.filterMap (fun r => r)).flatten)))).map
        Slide.timestamp_start
      = (sort_slides (renumber ((rs.filterMap (fun r => r)).flatten))).map
        Slide.timestamp_start :=
    renumber_map Slide.timestamp_start (fun _ _ => rfl) _
  have hx : List.Chain' (fun a b : ℚ => a ≤ b)
      ((renumber (sort_slides (renumber ((rs.filterMap (fun r => r)).flatten)))).map
        Slide.timestamp_start) := by
    rw [hmap]
    exact (List.chain'_map Slide.timestamp_start).mpr h2
  exact (List.chain'_map Slide.timestamp_start).mp hx

/-- The synchronizer's per-slide loop only touches timestamps. -/
lemma sync_loop_map {β : Type} (g : Slide → β)
    (hg : ∀ s a b, g { s with timestamp_start := a, timestamp_end := b } = g s) :
    ∀ (segs : List TranscriptSegment) (i : ℕ) (used : List ℕ) (slides : List Slide),
      (sync_loop segs i used slides).map g = slides.map g := by
  intro segs i used slides
  induction slides generalizing i used with
  | nil => rfl
  | cons s rest ih =>
    simp only [sync_loop]
    cases hb : (find_best_match s segs used (i - 2)).1 with
    | none => simp only [List.map_cons, ih]
    | some j =>
      by_cases ht : similarity_threshold ≤ (find_best_match s segs used (i - 2)).2
      · simp only [if_pos ht, List.map_cons, ih, hg]
      · simp only [if_neg ht, List.map_cons, ih]

/-- The overlap-resolution pass only touches end timestamps. -/
lemma adjust_end_times_map {β : Type} (g : Slide → β)
    (hg : ∀ s a, g { s with timestamp_end := a } = g s) :
    ∀ l : List Slide, (adjust_end_times l).map g = l.map g := by
  intro l
  induction l with
  | nil => rfl
  | cons s rest ih =>
    cases rest with
    | nil => rfl
    | cons t rest' =>
      rw [adjust_end_times]
      by_cases h : t.timestamp_start < s.timestamp_end
      · simp only [if_pos h, List.map_cons, hg]
        rw [← List.map_cons g t rest', ih]
      · simp only [if_neg h, List.map_cons]
        rw [← List.map_cons g t rest', ih]

end Slidecast

namespace Slidecast

section ConcreteEvaluation

attribute [local semireducible] Rat.mul Rat.inv Rat.add Rat.sub

/-- **C10.** The overlap-resolution pass lowers a slide's
`timestamp_end` with no lower bound at the slide's own
`timestamp_start`: with the first slide re-anchored to the late segment
(similarity 1 ≥ 0.3) and the second slide keeping its early original
timestamps, the clamp drives the first slide's `timestamp_end` (110)
down to the second slide's `timestamp_start` (3), strictly below its
own `timestamp_start` (100). -/
theorem C10_end_before_start :
    ∃ s ∈ (sync_with_audio example_presentation_b example_segments_b).slides,
      s.timestamp_end < s.timestamp_start := by
  decide

/-- **Counterexample to C1 as stated.** After `sync`, slides need not be
in non-decreasing `timestamp_start` order: the first slide is
re-anchored to the matching segment at 50 while the second slide (no
keywords, no match) keeps its original start 0. -/
theorem C1_counterexample_sync_unordered :
    ¬ List.Chain' ts_le
      (sync_with_audio example_presentation_a example_segments_a).slides := by
  intro hc
  have hmap : (sync_with_audio example_presentation_a example_segments_a).slides.map
      Slide.timestamp_start = [50, 0] := by decide
  have hchain : List.Chain' (fun a b : ℚ => a ≤ b) [(50 : ℚ), 0] := by
    rw [← hmap]
    exact (List.chain'_map Slide.timestamp_start).mpr hc
  have h50 : (50 : ℚ) ≤ 0 := (List.chain'_cons.mp hchain).1
  norm_num at h50

end ConcreteEvaluation

/-- **C1 (amended).** After generation the slides are in non-decreasing
`timestamp_start` order, for every backend oracle and segment input.
Synchronization preserves the input presentation's slide order (witnessed
by the unchanged id sequence) but — as the counterexample shows — its
output need not be ordered by `timestamp_start`. -/
theorem C1_amended_order_invariant :
    (∀ (ca : ℕ → ℕ → Option (List Slide)) (ta : ℕ → Option String)
        (segs : List TranscriptSegment),
      List.Chain' ts_le (generate_slides_async ca ta segs).slides) ∧
    (∀ (p : PresentationManifest) (segs : List TranscriptSegment),
      (sync_with_audio p segs).slides.map Slide.id = p.slides.map Slide.id) := by
  constructor
  · intro ca ta segs
    simp only [generate_slides_async]
    by_cases h : chunk_segments segs 120 = []
    · simp only [if_pos h]
      exact List.chain'_nil
    · simp only [if_neg h]
      exact assemble_sorted _
  · intro p segs
    by_cases h : segs = []
    · rw [sync_with_audio, if_pos h]
    · rw [sync_with_audio, if_neg h]
      simp only
      rw [adjust_end_times_map Slide.id (fun _ _ => rfl),
        sync_loop_map Slide.id (fun _ _ _ => rfl)]

end Slidecast

namespace Slidecast

/-! ## C6 — overlap resolution -/

/-- The overlap pass never changes the head's `timestamp_start`. -/
lemma adjust_end_times_head :
    ∀ (t : Slide) (rest : List Slide), ∃ t' rest',
      adjust_end_times (t :: rest) = t' :: rest' ∧
        t'.timestamp_start = t.timestamp_start := by
  intro t rest
  cases rest with
  | nil => exact ⟨t, [], rfl, rfl⟩
  | cons u rest' =>
    rw [adjust_end_times]
    refine ⟨_, _, rfl, ?_⟩
    by_cases h : u.timestamp_start < t.timestamp_end
    · rw [if_pos h]
    · rw [if_neg h]

/-- After the overlap pass every adjacent pair satisfies
`timestamp_end ≤ timestamp_start`. -/
lemma adjust_end_times_chain :
    ∀ l : List Slide, List.Chain' no_overlap (adjust_end_times l) := by
  intro l
  induction l with
  | nil => exact List.chain'_nil
  | cons s rest ih =>
    cases rest with
    | nil => simp [adjust_end_times, List.chain'_singleton]
    | cons t rest' =>
      rw [adjust_end_times]
      obtain ⟨t', rest'', heq, hts⟩ := adjust_end_times_head t rest'
      rw [heq]
      rw [heq] at ih
      apply List.chain'_cons.mpr
      refine ⟨?_, ih⟩
      by_cases h : t.timestamp_start < s.timestamp_end
      · rw [if_pos h]
        show t.timestamp_start ≤ t'.timestamp_start
        rw [hts]
      · rw [if_neg h]
        show s.timestamp_end ≤ t'.timestamp_start
        rw [hts]
        exact le_of_not_lt h

/-- **C6.** After `sync`, adjacent slides do not overlap: slide `i`'s
`timestamp_end` never exceeds slide `i+1`'s `timestamp_start`. With
non-empty segments this is enforced unconditionally by the overlap pass;
with empty segments `sync` returns its input unchanged, so the §3
data-model invariant assumed of any input `Presentation` is what is
preserved. -/
theorem C6_overlap_resolution :
    ∀ (p : PresentationManifest) (segs : List TranscriptSegment),
      (segs ≠ [] ∨ List.Chain' no_overlap p.slides) →
      List.Chain' no_overlap (sync_with_audio p segs).slides := by
  intro p segs h
  by_cases hs : segs = []
  · rw [sync_with_audio, if_pos hs]
    rcases h with h | h
    · exact absurd hs h
    · exact h
  · rw [sync_with_audio, if_neg hs]
    simp only
    exact adjust_end_times_chain _

section ConcreteWitnessC6

attribute [local semireducible] Rat.mul Rat.inv Rat.add Rat.sub

/-- Witness for C6 at a concrete input with non-empty segments. -/
theorem C6_witness :
    List.Chain' no_overlap
      (sync_with_audio example_presentation_a example_segments_a).slides :=
  C6_overlap_resolution example_presentation_a example_segments_a
    (Or.inl (by decide))

end ConcreteWitnessC6

/-! ## C7 — total-outage degradation -/

/-- The tasks settled by the orchestrator are the chunk tasks followed by
the title task. -/
lemma gather_tasks_dropLast (ca : ℕ → ℕ → Option (List Slide))
    (ta : ℕ → Option String) (chunks : List (List TranscriptSegment)) :
    (gather_tasks ca ta chunks).dropLast
      = (chunk_task_results ca chunks).map TaskResult.slides := by
  rw [gather_tasks, List.dropLast_concat]

/-- The last settled task is the title/metadata task. -/
lemma gather_tasks_getLast (ca : ℕ → ℕ → Option (List Slide))
    (ta : ℕ → Option String) (chunks : List (List TranscriptSegment)) :
    (gather_tasks ca ta chunks).getLast? = some (TaskResult.meta (ta 0)) := by
  rw [gather_tasks, List.getLast?_concat]

/-- Splitting a non-empty segment list yields at least one chunk. -/
lemma chunk_segments_ne_nil (segments : List TranscriptSegment) (d : ℚ)
    (h : segments ≠ []) : chunk_segments segments d ≠ [] := by
  intro habs
  apply h
  have := congrArg List.flatten habs
  cases segments with
  | nil => rfl
  | cons s0 rest =>
    rw [chunk_segments, chunk_loop_flatten] at this
    simp at this

/-- The orchestrator on non-empty input, written in terms of the task
list: sentinel title on title-task failure and assembly of the chunk
tasks' results. -/
lemma generate_slides_async_eq (ca : ℕ → ℕ → Option (List Slide))
    (ta : ℕ → Option String) (segs : List TranscriptSegment)
    (h : chunk_segments segs 120 ≠ []) :
    generate_slides_async ca ta segs =
      { metadata :=
          { title := match ta 0 with | some t => t | none => "Presentazione",
            duration := match segs.getLast? with | some s => s.«end» | none => 0 },
        slides := assemble (chunk_task_results ca (chunk_segments segs 120)) } := by
  simp only [generate_slides_async, if_neg h, gather_tasks_getLast, gather_tasks_dropLast]
  have hmap : ((chunk_task_results ca (chunk_segments segs 120)).map TaskResult.slides).map
        (fun r => match r with
          | TaskResult.slides result => result
          | TaskResult.meta _ => none)
      = chunk_task_results ca (chunk_segments segs 120) := by
    rw [List.map_map]
    exact List.map_id _
  rw [hmap]
  cases ta 0 <;> rfl

/-- A chunk task whose every attempt fails settles as a failure. -/
lemma process_chunk_all_fail (f : ℕ → Option (List Slide))
    (h : ∀ k, k < 5 → f k = none) : process_chunk f = none := by
  rw [process_chunk, retryCall]
  rw [List.findSome?_eq_none_iff]
  intro x hx
  exact h x (List.mem_range.mp hx)

/-- Assembling only failed chunk results yields no slides. -/
lemma assemble_all_none (rs : List (Option (List Slide)))
    (h : ∀ r ∈ rs, r = none) : assemble rs = [] := by
  have : rs.filterMap (fun r => r) = [] := by
    rw [List.filterMap_eq_nil_iff]
    intro a ha
    rw [h a ha]
  rw [assemble, this]
  rfl

/-- **C7.** If every chunk task fails (total backend outage), `generate`
on a non-empty segment sequence still returns a well-formed presentation
with no slides (and, being a total function, cannot raise). -/
theorem C7_total_outage_degradation :
    ∀ (ta : ℕ → Option String) (segs : List TranscriptSegment), segs ≠ [] →
      (generate_slides_async (fun _ _ => none) ta segs).slides = [] := by
  intro ta segs h
  rw [generate_slides_async_eq _ _ _ (chunk_segments_ne_nil segs 120 h)]
  simp only
  apply assemble_all_none
  intro r hr
  rw [chunk_task_results] at hr
  obtain ⟨i, _, hi⟩ := List.mem_map.mp hr
  rw [← hi, process_chunk_all_fail]
  intro k _
  rfl

/-- Witness for C7 at a concrete non-empty transcription. -/
theorem C7_witness :
    (generate_slides_async (fun _ _ => none) (fun _ => some "T")
        [{ start := 0, «end» := 1, text := "x" }]).slides = [] :=
  C7_total_outage_degradation (fun _ => some "T")
    [{ start := 0, «end» := 1, text := "x" }] (by decide)

end Slidecast

namespace Slidecast

/-! ## C4 — determinism of the orchestrator's assembly -/

/-- Inserting a slide into a list skips only strictly-earlier slides, so
filtering by an exact `timestamp_start` value commutes with insertion:
the inserted slide lands in front of the equal-key block. -/
lemma orderedInsert_filter_ts (q : ℚ) (a : Slide) :
    ∀ L : List Slide,
      (L.orderedInsert (fun x y : Slide => x.timestamp_start ≤ y.timestamp_start) a).filter
          (fun s => s.timestamp_start = q)
        = if a.timestamp_start = q
          then a :: L.filter (fun s => s.timestamp_start = q)
          else L.filter (fun s => s.timestamp_start = q) := by
  intro L
  induction L with
  | nil =>
    by_cases hp : a.timestamp_start = q
    · simp [List.orderedInsert, hp]
    · simp [List.orderedInsert, hp]
  | cons b L ih =>
    rw [List.orderedInsert]
    by_cases hr : a.timestamp_start ≤ b.timestamp_start
    · rw [if_pos hr]
      by_cases hp : a.timestamp_start = q <;> simp [List.filter_cons, hp]
    · rw [if_neg hr]
      rw [List.filter_cons, List.filter_cons]
      by_cases hpb : b.timestamp_start = q
      · have hpa : ¬ a.timestamp_start = q := by
          intro hq
          exact hr (le_of_eq (hq.trans hpb.symm))
        simp [hpb, hpa, ih]
      · simp [hpb, ih]

/-- Filtering by an exact `timestamp_start` value is invariant under the
stable sort: ties keep their relative input order. -/
lemma sort_slides_filter_ts (q : ℚ) :
    ∀ l : List Slide,
      (sort_slides l).filter (fun s => s.timestamp_start = q)
        = l.filter (fun s => s.timestamp_start = q) := by
  intro l
  induction l with
  | nil => rfl
  | cons a l ih =>
    rw [sort_slides, List.insertionSort]
    rw [orderedInsert_filter_ts]
    rw [show List.insertionSort (fun x y : Slide => x.timestamp_start ≤ y.timestamp_start) l
        = sort_slides l from rfl]
    rw [ih, List.filter_cons]
    by_cases hp : a.timestamp_start = q <;> simp [hp]

/-- Two lists with the same payload sequence have the same payload
sequence after filtering by a `timestamp_start` value. -/
lemma filter_map_payload_congr :
    ∀ (l₁ l₂ : List Slide), l₁.map slide_payload = l₂.map slide_payload →
      ∀ q : ℚ,
        (l₁.filter (fun s => s.timestamp_start = q)).map slide_payload
          = (l₂.filter (fun s => s.timestamp_start = q)).map slide_payload := by
  intro l₁
  induction l₁ with
  | nil =>
    intro l₂ h q
    cases l₂ with
    | nil => rfl
    | cons b l₂ => exact absurd h (by simp)
  | cons a l ih =>
    intro l₂ h q
    cases l₂ with
    | nil => exact absurd h (by simp)
    | cons b l₂ =>
      rw [List.map_cons, List.map_cons] at h
      obtain ⟨h1, h2⟩ := List.cons_eq_cons.mp h
      have hts : a.timestamp_start = b.timestamp_start := congrArg Prod.fst h1
      rw [List.filter_cons, List.filter_cons]
      by_cases hp : a.timestamp_start = q
      · have hpb : b.timestamp_start = q := by rw [← hts]; exact hp
        rw [if_pos (by simp [hp]), if_pos (by simp [hpb]), List.map_cons, List.map_cons,
          h1, ih l₂ h2 q]
      · have hpb : ¬ b.timestamp_start = q := by rw [← hts]; exact hp
        rw [if_neg (by simp [hp]), if_neg (by simp [hpb])]
        exact ih l₂ h2 q

/-- **C4.** For any surviving chunk outputs, the assembled slide list is
sorted ascending by `timestamp_start`, its ids are the dense sequence
`1..N`, and the sort is stable: for every key value, the slides with
that `timestamp_start` appear in the same relative order (same payload
sequence) as in the concatenation of the surviving chunk outputs.
Gathering preserves launch order, so chunk completion order never enters
the computation. -/
theorem C4_orchestrator_determinism :
    ∀ rs : List (Option (List Slide)),
      List.Chain' ts_le (assemble rs) ∧
      (assemble rs).map Slide.id = List.range' 1 (assemble rs).length ∧
      ∀ q : ℚ,
        ((assemble rs).filter (fun s => s.timestamp_start = q)).map slide_payload
          = ((rs.filterMap (fun r => r)).flatten.filter
              (fun s => s.timestamp_start = q)).map slide_payload := by
  intro rs
  refine ⟨assemble_sorted rs, ?_, ?_⟩
  · rw [assemble, renumber_map_id, renumber_length]
  · intro q
    have step1 : ((assemble rs).filter (fun s => s.timestamp_start = q)).map slide_payload
        = ((sort_slides (renumber ((rs.filterMap (fun r => r)).flatten))).filter
            (fun s => s.timestamp_start = q)).map slide_payload := by
      rw [assemble]
      exact filter_map_payload_congr _ _
        (renumber_map slide_payload (fun _ _ => rfl) _) q
    rw [step1, sort_slides_filter_ts]
    exact filter_map_payload_congr _ _
      (renumber_map slide_payload (fun _ _ => rfl) _) q

end Slidecast

namespace Slidecast

/-! ## C3 — per-task retry policy -/

/-- First-success behaviour of `findSome?` over a prefix of failures. -/
lemma findSome?_first_success {α β : Type} (f : α → Option β) :
    ∀ (l₁ l₂ : List α) (a : α) (x : β), (∀ y ∈ l₁, f y = none) → f a = some x →
      (l₁ ++ a :: l₂).findSome? f = some x := by
  intro l₁
  induction l₁ with
  | nil =>
    intro l₂ a x _ ha
    rw [List.nil_append, List.findSome?_cons, ha]
  | cons y l₁ ih =>
    intro l₂ a x h ha
    rw [List.cons_append, List.findSome?_cons, h y (List.mem_cons_self y l₁)]
    exact ih l₂ a x (fun z hz => h z (List.mem_cons_of_mem y hz)) ha

/-- **C3 (amended).** Exactly `len(chunks) + 1` tasks are settled — one
per chunk plus the title/metadata task. Each *chunk* task independently
retries its backend call on any failure, up to 5 attempts (failing only
when all five attempts fail, succeeding with the first successful
attempt), with exponential backoff waits of 2, 4, 8, 16 seconds (base
delay 2s, cap 60s). The title task, by contrast, is invoked exactly once
with no retry (see the counterexample). One task's outcome never
affects a sibling task: a chunk task's settled result depends only on
its own attempt oracle. -/
theorem C3_amended_retry_policy :
    (∀ (ca : ℕ → ℕ → Option (List Slide)) (ta : ℕ → Option String)
        (chunks : List (List TranscriptSegment)),
      (gather_tasks ca ta chunks).length = chunks.length + 1) ∧
    (∀ f : ℕ → Option (List Slide), (∀ k, k < 5 → f k = none) →
      process_chunk f = none) ∧
    (∀ (f : ℕ → Option (List Slide)) (k : ℕ) (x : List Slide),
      k < 5 → (∀ j, j < k → f j = none) → f k = some x → process_chunk f = some x) ∧
    ((List.range' 1 4).map (wait_exponential 1 2 60) = [2, 4, 8, 16]) ∧
    (∀ n : ℕ, 2 ≤ wait_exponential 1 2 60 n ∧ wait_exponential 1 2 60 n ≤ 60) ∧
    (∀ (ca ca' : ℕ → ℕ → Option (List Slide)) (ta ta' : ℕ → Option String)
        (chunks : List (List TranscriptSegment)) (j : ℕ), j < chunks.length →
      ca j = ca' j →
      (gather_tasks ca ta chunks)[j]? = (gather_tasks ca' ta' chunks)[j]?) := by
  refine ⟨?_, process_chunk_all_fail, ?_, ?_, ?_, ?_⟩
  · intro ca ta chunks
    simp [gather_tasks, chunk_task_results]
  · intro f k x hk hfail hsucc
    rw [process_chunk, retryCall]
    interval_cases k
    · exact findSome?_first_success f [] [1, 2, 3, 4] 0 x (by simp) hsucc
    · exact findSome?_first_success f [0] [2, 3, 4] 1 x
        (by intro y hy; rw [List.mem_singleton.mp hy]; exact hfail 0 (by omega)) hsucc
    · refine findSome?_first_success f [0, 1] [3, 4] 2 x ?_ hsucc
      intro y hy
      rcases List.mem_cons.mp hy with h | h
      · rw [h]; exact hfail 0 (by omega)
      · rw [List.mem_singleton.mp h]; exact hfail 1 (by omega)
    · refine findSome?_first_success f [0, 1, 2] [4] 3 x ?_ hsucc
      intro y hy
      rcases List.mem_cons.mp hy with h | h
      · rw [h]; exact hfail 0 (by omega)
      rcases List.mem_cons.mp h with h' | h'
      · rw [h']; exact hfail 1 (by omega)
      · rw [List.mem_singleton.mp h']; exact hfail 2 (by omega)
    · refine findSome?_first_success f [0, 1, 2, 3] [] 4 x ?_ hsucc
      intro y hy
      rcases List.mem_cons.mp hy with h | h
      · rw [h]; exact hfail 0 (by omega)
      rcases List.mem_cons.mp h with h' | h'
      · rw [h']; exact hfail 1 (by omega)
      rcases List.mem_cons.mp h' with h'' | h''
      · rw [h'']; exact hfail 2 (by omega)
      · rw [List.mem_singleton.mp h'']; exact hfail 3 (by omega)
  · show [wait_exponential 1 2 60 1, wait_exponential 1 2 60 2,
      wait_exponential 1 2 60 3, wait_exponential 1 2 60 4] = [2, 4, 8, 16]
    norm_num [wait_exponential, min_def, max_def]
  · intro n
    refine ⟨le_max_left _ _, max_le (by norm_num) (min_le_right _ _)⟩
  · intro ca ca' ta ta' chunks j hj hca
    rw [gather_tasks, gather_tasks,
      List.getElem?_append_left (by simpa [chunk_task_results] using hj),
      List.getElem?_append_left (by simpa [chunk_task_results] using hj)]
    simp only [chunk_task_results, List.getElem?_map, List.getElem?_range hj, Option.map_some',
      hca]

end Slidecast

namespace Slidecast

section ConcreteEvaluationC3

attribute [local semireducible] Rat.mul Rat.inv Rat.add Rat.sub

/-- **Counterexample to C3 as stated.** The title/metadata task is *not*
retried: with a title oracle that fails on its first attempt but would
succeed on the second, the retried call would produce the title `"T"`,
yet `generate` falls back to the sentinel title `"Presentazione"`
because `_generate_title_async` carries no retry decorator and only
attempt 0 is ever made. -/
theorem C3_counterexample_title_not_retried :
    retryCall 5 (fun k => if k = 0 then none else some "T") = some "T" ∧
    (generate_slides_async (fun _ _ => some [])
        (fun k => if k = 0 then none else some "T")
        [{ start := 0, «end» := 1, text := "x" }]).metadata.title
      = "Presentazione" := by
  constructor
  · rfl
  · decide

end ConcreteEvaluationC3

/-- Witness for C3 (amended) at concrete inputs: task count for one
chunk, exhaustion after five failed attempts, success at the third
attempt after two failures, the backoff bounds at attempt 3, and
independence of chunk task 0 from the title oracle. -/
theorem C3_witness :
    (gather_tasks (fun _ _ => some []) (fun _ => some "T")
        [[{ start := 0, «end» := 1, text := "x" }]]).length = 1 + 1 ∧
    process_chunk (fun _ => none) = none ∧
    process_chunk (fun k => if k = 2 then some [] else none) = some [] ∧
    (2 ≤ wait_exponential 1 2 60 3 ∧ wait_exponential 1 2 60 3 ≤ 60) ∧
    (gather_tasks (fun _ _ => some []) (fun _ => some "T")
        [[{ start := 0, «end» := 1, text := "x" }]])[0]?
      = (gather_tasks (fun _ _ => some []) (fun _ => none)
        [[{ start := 0, «end» := 1, text := "x" }]])[0]? :=
  ⟨C3_amended_retry_policy.1 (fun _ _ => some []) (fun _ => some "T") _,
   C3_amended_retry_policy.2.1 (fun _ => none) (fun _ _ => rfl),
   C3_amended_retry_policy.2.2.1 (fun k => if k = 2 then some [] else none) 2 []
     (by omega) (fun j hj => by interval_cases j <;> rfl) rfl,
   C3_amended_retry_policy.2.2.2.2.1 3,
   C3_amended_retry_policy.2.2.2.2.2 (fun _ _ => some []) (fun _ _ => some [])
     (fun _ => some "T") (fun _ => none) _ 0 (by simp) rfl⟩

end Slidecast

namespace Slidecast

/-! ## C2 — characterization of the per-slide matching -/

/-- Skipping consumed indices inside the fold is folding over the
filtered candidate list. -/
lemma foldl_skip_mem (used : List ℕ) (g : (Option ℕ × ℚ) → ℕ → (Option ℕ × ℚ)) :
    ∀ (cs : List ℕ) (acc : Option ℕ × ℚ),
      cs.foldl (fun a j => if j ∈ used then a else g a j) acc
        = (cs.filter (fun j => j ∉ used)).foldl g acc := by
  intro cs
  induction cs with
  | nil => intro acc; rfl
  | cons c cs ih =>
    intro acc
    rw [List.foldl_cons, List.filter_cons]
    by_cases hc : c ∈ used
    · rw [if_pos hc, if_neg (by simp [hc])]
      exact ih acc
    · rw [if_neg hc, if_pos (by simp [hc]), List.foldl_cons]
      exact ih (g acc c)

lemma best_max_nil (f : ℕ → ℚ) (b : ℚ) : best_max f [] b = b := rfl

lemma best_max_cons (f : ℕ → ℚ) (c : ℕ) (cs : List ℕ) (b : ℚ) :
    best_max f (c :: cs) b = best_max f cs (max b (f c)) := rfl

/-- The running maximum dominates its seed. -/
lemma best_max_le_init (f : ℕ → ℚ) :
    ∀ (cs : List ℕ) (b : ℚ), b ≤ best_max f cs b := by
  intro cs
  induction cs with
  | nil => intro b; exact le_refl b
  | cons c cs ih =>
    intro b
    rw [best_max_cons]
    exact le_trans (le_max_left _ _) (ih _)

/-- The running maximum dominates every scanned candidate. -/
lemma best_max_mem_le (f : ℕ → ℚ) :
    ∀ (cs : List ℕ) (b : ℚ) (j : ℕ), j ∈ cs → f j ≤ best_max f cs b := by
  intro cs
  induction cs with
  | nil => intro b j hj; exact absurd hj (List.not_mem_nil j)
  | cons c cs ih =>
    intro b j hj
    rw [best_max_cons]
    rcases List.mem_cons.mp hj with h | h
    · subst h
      exact le_trans (le_max_right _ _) (best_max_le_init f cs _)
    · exact ih _ j h

/-- The running maximum is the seed or is attained by a candidate. -/
lemma best_max_attained (f : ℕ → ℚ) :
    ∀ (cs : List ℕ) (b : ℚ),
      best_max f cs b = b ∨ ∃ j ∈ cs, best_max f cs b = f j := by
  intro cs
  induction cs with
  | nil => intro b; exact Or.inl rfl
  | cons c cs ih =>
    intro b
    rw [best_max_cons]
    rcases ih (max b (f c)) with h | ⟨j, hj, hfj⟩
    · rcases max_choice b (f c) with hb | hc
      · exact Or.inl (h.trans hb)
      · exact Or.inr ⟨c, List.mem_cons_self c cs, h.trans hc⟩
    · exact Or.inr ⟨j, List.mem_cons_of_mem c hj, hfj⟩

/-- Second component of the strict-improvement fold: the running
maximum. -/
lemma best_fold_snd (f : ℕ → ℚ) :
    ∀ (cs : List ℕ) (bi : Option ℕ) (bs : ℚ),
      (cs.foldl (best_step f) (bi, bs)).2 = best_max f cs bs := by
  intro cs
  induction cs with
  | nil => intro bi bs; rfl
  | cons c cs ih =>
    intro bi bs
    rw [List.foldl_cons, best_max_cons, best_step]
    by_cases h : bs < f c
    · rw [if_pos h, max_eq_right (le_of_lt h)]
      exact ih (some c) (f c)
    · rw [if_neg h, max_eq_left (le_of_not_lt h)]
      exact ih bi bs

/-- First component of the strict-improvement fold: the first candidate
attaining the running maximum whenever the maximum strictly improves on
the seed, the seeded index otherwise. -/
lemma best_fold_fst (f : ℕ → ℚ) :
    ∀ (cs : List ℕ) (bi : Option ℕ) (bs : ℚ),
      (cs.foldl (best_step f) (bi, bs)).1
        = if bs < best_max f cs bs
          then cs.find? (fun j => f j = best_max f cs bs)
          else bi := by
  intro cs
  induction cs with
  | nil =>
    intro bi bs
    rw [best_max_nil, if_neg (lt_irrefl bs)]
    rfl
  | cons c cs ih =>
    intro bi bs
    rw [List.foldl_cons, best_max_cons, best_step]
    by_cases h : bs < f c
    · rw [if_pos h, max_eq_right (le_of_lt h), ih (some c) (f c)]
      have hcle : f c ≤ best_max f cs (f c) := best_max_le_init f cs (f c)
      have hbs : bs < best_max f cs (f c) := lt_of_lt_of_le h hcle
      rw [if_pos hbs]
      by_cases hlt : f c < best_max f cs (f c)
      · rw [if_pos hlt, List.find?_cons_of_neg _
          (by simp only [decide_eq_true_eq]; exact ne_of_lt hlt)]
      · rw [if_neg hlt]
        have hceq : f c = best_max f cs (f c) := le_antisymm hcle (le_of_not_lt hlt)
        rw [List.find?_cons_of_pos _ (by simp only [decide_eq_true_eq]; exact hceq)]
    · rw [if_neg h, max_eq_left (le_of_not_lt h), ih bi bs]
      by_cases h2 : bs < best_max f cs bs
      · rw [if_pos h2, if_pos h2]
        have hne : ¬ f c = best_max f cs bs := by
          intro hceq
          exact h (lt_of_lt_of_le h2 (le_of_eq hceq.symm))
        rw [List.find?_cons_of_neg _ (by simp only [decide_eq_true_eq]; exact hne)]
      · rw [if_neg h2, if_neg h2]

/-- The candidate search of the synchronizer computes the maximal
similarity over the unused window, and selects the first candidate
attaining it, provided the maximum is positive. -/
lemma find_best_match_eq (slide : Slide) (segs : List TranscriptSegment)
    (used : List ℕ) (i : ℕ) :
    find_best_match slide segs used (i - 2)
      = (if 0 < best_max (segment_similarity slide segs) (candidate_indices segs i used) 0
         then (candidate_indices segs i used).find?
             (fun j => segment_similarity slide segs j
               = best_max (segment_similarity slide segs) (candidate_indices segs i used) 0)
         else none,
        best_max (segment_similarity slide segs) (candidate_indices segs i used) 0) := by
  have hstep : find_best_match slide segs used (i - 2)
      = (candidate_indices segs i used).foldl
          (best_step (segment_similarity slide segs)) (none, 0) := by
    rw [find_best_match, candidate_indices]
    exact foldl_skip_mem used (best_step (segment_similarity slide segs)) _ _
  rw [hstep]
  refine Prod.ext ?_ ?_
  · rw [best_fold_fst]
  · rw [best_fold_snd]

/-- One accepted step of the per-slide loop. -/
lemma sync_loop_cons_accept (segs : List TranscriptSegment) (i : ℕ) (used : List ℕ)
    (slide : Slide) (rest : List Slide) (j : ℕ)
    (h1 : (find_best_match slide segs used (i - 2)).1 = some j)
    (h2 : similarity_threshold ≤ (find_best_match slide segs used (i - 2)).2) :
    sync_loop segs i used (slide :: rest)
      = { slide with
          timestamp_start := (segs.getD j default_segment).start,
          timestamp_end :=
            (segs.getD j default_segment).start
              + (slide.timestamp_end - slide.timestamp_start) }
        :: sync_loop segs (i + 1) (j :: used) rest := by
  simp only [sync_loop]
  split
  case h_1 x heq =>
    rw [h1] at heq
    injection heq with heq
    subst heq
    rw [if_pos h2]
  case h_2 heq =>
    rw [h1] at heq
    exact absurd heq (by simp)

/-- One rejected step of the per-slide loop (best similarity below the
threshold, whether or not a candidate exists). -/
lemma sync_loop_cons_keep (segs : List TranscriptSegment) (i : ℕ) (used : List ℕ)
    (slide : Slide) (rest : List Slide)
    (hth : ¬ similarity_threshold ≤ (find_best_match slide segs used (i - 2)).2) :
    sync_loop segs i used (slide :: rest) = slide :: sync_loop segs (i + 1) used rest := by
  simp only [sync_loop]
  split
  case h_1 x heq => rw [if_neg hth]
  case h_2 heq => rfl

end Slidecast

namespace Slidecast

/-- **C2.** One step of the synchronizer's per-slide matching, for the
slide at position `slide_idx` with the consumed-index set `used`: the
loop emits one output slide and continues on the remaining slides with
an updated consumed set; the output slide copies id, title, content,
formulas and deep dive verbatim; and either (accept) the candidate list
— unused segment indices from `max(0, slide_idx - 2)` on — splits
around a chosen index `j` that strictly beats every earlier candidate
and weakly beats every later one (first-seen wins ties), whose
similarity reaches the `0.3` threshold, the new `timestamp_start` is
that segment's start, the new `timestamp_end` is the new start plus the
slide's original duration and `j` is marked used, or (reject) every
candidate's similarity is below the threshold and both original
timestamps are kept with the consumed set unchanged. -/
theorem C2_sync_matching_step :
    ∀ (segs : List TranscriptSegment) (slide_idx : ℕ) (used : List ℕ)
      (slide : Slide) (rest : List Slide),
      ∃ s' used',
        sync_loop segs slide_idx used (slide :: rest)
          = s' :: sync_loop segs (slide_idx + 1) used' rest ∧
        s'.id = slide.id ∧ s'.title = slide.title ∧ s'.content = slide.content ∧
        s'.math_formulas = slide.math_formulas ∧ s'.deep_dive = slide.deep_dive ∧
        ((∃ j l₁ l₂,
            candidate_indices segs slide_idx used = l₁ ++ j :: l₂ ∧
            (∀ k ∈ l₁, segment_similarity slide segs k
              < segment_similarity slide segs j) ∧
            (∀ k ∈ l₂, segment_similarity slide segs k
              ≤ segment_similarity slide segs j) ∧
            similarity_threshold ≤ segment_similarity slide segs j ∧
            s'.timestamp_start = (segs.getD j default_segment).start ∧
            s'.timestamp_end
              = s'.timestamp_start + (slide.timestamp_end - slide.timestamp_start) ∧
            used' = j :: used) ∨
          ((∀ k ∈ candidate_indices segs slide_idx used,
              segment_similarity slide segs k < similarity_threshold) ∧
            s'.timestamp_start = slide.timestamp_start ∧
            s'.timestamp_end = slide.timestamp_end ∧
            used' = used)) := by
  intro segs i used slide rest
  by_cases hM : similarity_threshold
      ≤ best_max (segment_similarity slide segs) (candidate_indices segs i used) 0
  · -- the best similarity reaches the threshold: the match is accepted
    have hMpos : 0 < best_max (segment_similarity slide segs)
        (candidate_indices segs i used) 0 :=
      lt_of_lt_of_le (by norm_num [similarity_threshold]) hM
    rcases best_max_attained (segment_similarity slide segs)
        (candidate_indices segs i used) 0 with h0 | ⟨j0, hj0mem, hj0⟩
    · rw [h0] at hMpos
      exact absurd hMpos (lt_irrefl 0)
    have hfind : ∃ jw, (candidate_indices segs i used).find?
        (fun j => segment_similarity slide segs j
          = best_max (segment_similarity slide segs) (candidate_indices segs i used) 0)
        = some jw := by
      rw [← Option.isSome_iff_exists, List.find?_isSome]
      exact ⟨j0, hj0mem, by simp only [decide_eq_true_eq]; exact hj0.symm⟩
    obtain ⟨jw, hjw⟩ := hfind
    have h1 : (find_best_match slide segs used (i - 2)).1 = some jw := by
      rw [find_best_match_eq, if_pos hMpos, hjw]
    have h2 : (find_best_match slide segs used (i - 2)).2
        = best_max (segment_similarity slide segs) (candidate_indices segs i used) 0 := by
      rw [find_best_match_eq]
    obtain ⟨hpjw, l₁, l₂, hsplit, hpre⟩ := List.find?_eq_some.mp hjw
    have hfjw : segment_similarity slide segs jw
        = best_max (segment_similarity slide segs) (candidate_indices segs i used) 0 := by
      simpa using hpjw
    refine ⟨_, jw :: used,
      sync_loop_cons_accept segs i used slide rest jw h1 (by rw [h2]; exact hM),
      rfl, rfl, rfl, rfl, rfl, Or.inl ⟨jw, l₁, l₂, hsplit, ?_, ?_, ?_, rfl, rfl, rfl⟩⟩
    · intro k hk
      have hkmem : k ∈ candidate_indices segs i used := by
        rw [hsplit]
        exact List.mem_append_left _ hk
      have hkle : segment_similarity slide segs k
          ≤ best_max (segment_similarity slide segs) (candidate_indices segs i used) 0 :=
        best_max_mem_le _ _ _ k hkmem
      have hkne : ¬ segment_similarity slide segs k
          = best_max (segment_similarity slide segs) (candidate_indices segs i used) 0 := by
        have := hpre k hk
        simpa using this
      rw [hfjw]
      exact lt_of_le_of_ne hkle hkne
    · intro k hk
      have hkmem : k ∈ candidate_indices segs i used := by
        rw [hsplit]
        exact List.mem_append_right _ (List.mem_cons_of_mem jw hk)
      rw [hfjw]
      exact best_max_mem_le _ _ _ k hkmem
    · rw [hfjw]
      exact hM
  · -- no candidate reaches the threshold: timestamps are kept
    have hth : ¬ similarity_threshold ≤ (find_best_match slide segs used (i - 2)).2 := by
      rw [find_best_match_eq]
      exact hM
    refine ⟨slide, used, sync_loop_cons_keep segs i used slide rest hth,
      rfl, rfl, rfl, rfl, rfl, Or.inr ⟨?_, rfl, rfl, rfl⟩⟩
    intro k hk
    exact lt_of_le_of_lt (best_max_mem_le _ _ _ k hk) (lt_of_not_le hM)

end Slidecast
